import Mathlib

/-!
Shallow embedding of the core of the markdown-to-printable-HTML converter:
the whitelist HTML sanitizer (`Sanitizer.js`), the block/inline markdown
parser (`MarkdownParser.js`) and its plugin pipeline.  JS strings are
modelled as Lean `String`s, with the character-level scanning performed on
`List Char` (UTF-16 details being irrelevant to the inputs considered);
the JS regular-expression operations are rendered as explicit scanning
functions with the same matching semantics.
-/

namespace MarkdownPDF

/-- The common whitespace characters matched by the JS `\s` regex class and
by `String.prototype.trim` (exotic Unicode space characters are not
modelled). -/
def jsWs (c : Char) : Bool :=
  c == ' ' || c == '\t' || c == '\n' || c == '\r' || c == '\x0b' || c == '\x0c'

/-- ASCII lowercasing, which is how `String.prototype.toLowerCase` acts on
the ASCII range. -/
def lowerChar (c : Char) : Char :=
  if 65 ≤ c.toNat ∧ c.toNat ≤ 90 then Char.ofNat (c.toNat + 32) else c

/-- `String.prototype.trim` on a character list. -/
def trimL (l : List Char) : List Char :=
  ((l.dropWhile jsWs).reverse.dropWhile jsWs).reverse

/-- `String.prototype.trim`. -/
def trimS (s : String) : String := ⟨trimL s.data⟩

/-- `String.prototype.toLowerCase` (ASCII range). -/
def lowerS (s : String) : String := ⟨s.data.map lowerChar⟩

/-- `s.indexOf(p) === 0`, i.e. `p` is a prefix of `s`. -/
def strStarts (s p : String) : Bool := p.data.isPrefixOf s.data

namespace Sanitizer

/-- `Sanitizer.prototype._initializeWhitelists`: the allowed HTML tags. -/
def allowedTags : List String :=
  ["h1", "h2", "h3", "h4", "h5", "h6",
   "p", "br", "hr",
   "strong", "em", "u", "s", "code", "pre",
   "ul", "ol", "li",
   "blockquote",
   "table", "thead", "tbody", "tr", "th", "td",
   "a", "img",
   "div", "span",
   "sup", "sub",
   "dl", "dt", "dd"]

/-- `Sanitizer.prototype._initializeWhitelists`: allowed attributes per tag
(`this.allowedAttributes[tagName] || []`). -/
def allowedAttributesFor (tagName : String) : List String :=
  if tagName = "a" then ["href", "title", "target"]
  else if tagName = "img" then ["src", "alt", "title", "width", "height"]
  else if tagName = "code" then ["class"]
  else if tagName = "pre" then ["class"]
  else if tagName = "div" then ["class", "id"]
  else if tagName = "span" then ["class"]
  else if tagName = "table" then ["class"]
  else if tagName = "th" then ["align", "colspan", "rowspan"]
  else if tagName = "td" then ["align", "colspan", "rowspan"]
  else []

/-- `Sanitizer.prototype._initializeWhitelists`: allowed URL schemes. -/
def allowedSchemes : List String := ["http:", "https:", "mailto:", "data:"]

/-- `Sanitizer.prototype._isValidURL`. -/
def isValidURL (url : String) : Bool :=
  if url = "" then false
  else if strStarts (lowerS url) "javascript:" then false
  else if strStarts (lowerS url) "vbscript:" then false
  else if strStarts url "//" then false
  else if strStarts (lowerS url) "data:" then strStarts url "data:image/"
  else if allowedSchemes.any (fun s => strStarts url s) then true
  else if strStarts url "/" || strStarts url "./" || strStarts url "../" then true
  else if strStarts url "#" then true
  else false

/-- The per-attribute decision made by `Sanitizer.prototype._sanitizeAttributes`
while walking the attribute list backwards: the attribute is kept iff its
lowercased name is whitelisted for the tag, it is not an `href`/`src` with an
invalid URL, and its name does not start with `on`. -/
def keepAttr (tagName name value : String) : Bool :=
  let an := lowerS name
  (allowedAttributesFor tagName).contains an
    && (if an = "href" || an = "src" then isValidURL value else true)
    && !(strStarts an "on")

/-- `Sanitizer.prototype._sanitizeAttributes`: the backwards in-place removal
loop decides each attribute independently, which amounts to a filter. -/
def sanitizeAttrs (tagName : String) (attrs : List (String × String)) :
    List (String × String) :=
  attrs.filter (fun a => keepAttr tagName a.1 a.2)

/-- A DOM node as seen by the sanitizer: element (`nodeType === 1`),
text (`nodeType === 3`), comment (`nodeType === 8`); other node types are
treated exactly like comments by `_sanitizeNode` and are not modelled
separately. -/
inductive DNode where
  | text (s : String)
  | comment (s : String)
  | elem (tagName : String) (attrs : List (String × String)) (children : List DNode)

/-- `Sanitizer.prototype._sanitizeNode` together with
`Sanitizer.prototype._sanitizeElement`, as a function on the child list.
`_sanitizeNode` iterates the child list by decreasing index (`while (i--)`);
each original child is visited exactly once and replaced in place:
a text node stays, a comment is removed, an allowed element keeps its tag,
filters its attributes and recursively sanitizes its children, and a
disallowed element is unwrapped — its children are spliced into the parent
at its position, in order.  Because the loop index keeps decreasing, the
spliced-in children (which sit at indices the loop has already passed) are
never themselves visited, which this function reproduces by emitting
`children` unprocessed in the disallowed branch. -/
def sanitizeNodes : List DNode → List DNode
  | [] => []
  | .text s :: rest => .text s :: sanitizeNodes rest
  | .comment _ :: rest => sanitizeNodes rest
  | .elem tagName attrs children :: rest =>
    let tag := lowerS tagName
    if allowedTags.contains tag then
      .elem tagName (sanitizeAttrs tag attrs) (sanitizeNodes children) :: sanitizeNodes rest
    else
      children ++ sanitizeNodes rest

/-- Serialization of an attribute list, as the DOM's `innerHTML` getter
renders the attributes of the trees considered here. -/
def serializeAttrs (attrs : List (String × String)) : String :=
  attrs.foldl (fun acc a => acc ++ " " ++ a.1 ++ "=\"" ++ a.2 ++ "\"") ""

/-- Serialization of a child list back to HTML text, as the DOM's
`innerHTML` getter renders the trees considered here (no void elements or
escaping-sensitive characters occur in them). -/
def serializeNodes : List DNode → String
  | [] => ""
  | .text s :: rest => s ++ serializeNodes rest
  | .comment s :: rest => "<!--" ++ s ++ "-->" ++ serializeNodes rest
  | .elem t a cs :: rest =>
    "<" ++ t ++ serializeAttrs a ++ ">" ++ serializeNodes cs ++ "</" ++ t ++ ">"
      ++ serializeNodes rest

/-- `Sanitizer.prototype.sanitize` on the code path where no DOM `document`
exists (Node.js): `_createContainer` returns the stub object whose
`childNodes` list is empty, so `_sanitizeNode` does nothing and the
`innerHTML` property is returned exactly as it was assigned. -/
def sanitizeNoDOM (html : String) : String :=
  if html = "" then ""
  else
    let _walk := sanitizeNodes []
    html

end Sanitizer

namespace MarkdownParser

/-- The character map of `MarkdownParser.prototype._escapeHTML`
(`/[&<>"']/g`). -/
def escChar (c : Char) : List Char :=
  if c = '&' then "&amp;".data
  else if c = '<' then "&lt;".data
  else if c = '>' then "&gt;".data
  else if c = '"' then "&quot;".data
  else if c = Char.ofNat 39 then "&#x27;".data
  else [c]

/-- `MarkdownParser.prototype._escapeHTML` on a character list. -/
def escapeChars (l : List Char) : List Char := (l.map escChar).flatten

/-- `MarkdownParser.prototype._escapeHTML`. -/
def escapeHTML (s : String) : String := ⟨escapeChars s.data⟩

/-- The `\w` regex class (`[A-Za-z0-9_]`). -/
def wordChar (c : Char) : Bool :=
  ('a' ≤ c && c ≤ 'z') || ('A' ≤ c && c ≤ 'Z') || ('0' ≤ c && c ≤ '9') || c == '_'

/-- A character kept by `.replace(/[^\w\s-]/g, '')`. -/
def idChar (c : Char) : Bool := wordChar c || jsWs c || c == '-'

/-- `.replace(/\s+/g, '-')`: each maximal whitespace run becomes one
hyphen.  The flag records whether the scanner is inside a run whose hyphen
has already been emitted. -/
def wsRunsToHyphen : List Char → Bool → List Char
  | [], _ => []
  | c :: cs, inRun =>
    if jsWs c then
      if inRun then wsRunsToHyphen cs true else '-' :: wsRunsToHyphen cs true
    else c :: wsRunsToHyphen cs false

/-- `.replace()` with the `-+` regex: each maximal hyphen run becomes one hyphen. -/
def collapseHyphens : List Char → Bool → List Char
  | [], _ => []
  | c :: cs, inRun =>
    if c = '-' then
      if inRun then collapseHyphens cs true else '-' :: collapseHyphens cs true
    else c :: collapseHyphens cs false

/-- `MarkdownParser.prototype._generateId`: lowercase, strip
`[^\w\s-]`, whitespace runs to `-`, hyphen runs to `-`, then
`String.prototype.trim` (which removes whitespace only). -/
def generateIdChars (l : List Char) : List Char :=
  trimL (collapseHyphens (wsRunsToHyphen ((l.map lowerChar).filter idChar) false) false)

/-- `MarkdownParser.prototype._generateId`. -/
def generateId (text : String) : String := ⟨generateIdChars text.data⟩

/-- Modelled from the spec's words, for comparison with `generateId`:
"lowercase, strip non-word/non-space/non-hyphen characters, collapse
whitespace runs to single hyphens, trim edge hyphens". -/
def generateIdSpec (text : String) : String :=
  let hyphenated := wsRunsToHyphen ((text.data.map lowerChar).filter idChar) false
  ⟨((hyphenated.dropWhile (· == '-')).reverse.dropWhile (· == '-')).reverse⟩

/-- What `generateId` actually computes: the final `.trim()` is the
identity (no whitespace remains after `/\s+/g → '-'`), so edge hyphens are
kept, and hyphen runs — including ones already present in the text — are
collapsed. -/
def generateIdActual (text : String) : String :=
  ⟨collapseHyphens (wsRunsToHyphen ((text.data.map lowerChar).filter idChar) false) false⟩

/-- `text.split(sep)` for a one-character separator. -/
def splitChar (sep : Char) : List Char → List (List Char)
  | [] => [[]]
  | c :: cs =>
    match splitChar sep cs with
    | [] => [[]]
    | seg :: segs => if c = sep then [] :: seg :: segs else (c :: seg) :: segs

/-- `array.join(sep)` for a one-character separator. -/
def joinWith (sep : Char) : List (List Char) → List Char
  | [] => []
  | [a] => a
  | a :: b :: rest => a ++ sep :: joinWith sep (b :: rest)

/-- Number of leading `#` characters. -/
def hashCount (l : List Char) : Nat := (l.takeWhile (· == '#')).length

/-- The detector `line.match(/^#{1,6}\s/)`. -/
def isHeadingStart (l : List Char) : Bool :=
  let k := hashCount l
  decide (1 ≤ k) && decide (k ≤ 6) &&
    (match l.drop k with
     | c :: _ => jsWs c
     | [] => false)

/-- `MarkdownParser.prototype._parseHeading`, with the backtracking
semantics of `/^(#{1,6})\s+(.+)$/` (when nothing but whitespace follows the
marker, `\s+` gives back one character to `(.+)`; `.` cannot match a
newline, but a split line contains none).  When the regex fails, the raw
line is returned.  `level` is a single digit `1`–`6`, rendered as its
decimal character. -/
def parseHeadingL (l : List Char) : List Char :=
  let k := hashCount l
  if 1 ≤ k ∧ k ≤ 6 then
    let afterHashes := l.drop k
    let m := (afterHashes.takeWhile jsWs).length
    let rest := afterHashes.drop m
    if m = 0 then l
    else
      let text0 := if rest = [] then
          if 2 ≤ m then afterHashes.drop (m - 1) else []
        else rest
      if text0 = [] then l
      else
        let text := trimL text0
        let id := generateIdChars text
        let digit : List Char := [Char.ofNat (48 + k)]
        "<h".data ++ digit ++ " id=\"".data ++ id ++ "\">".data
          ++ text ++ "</h".data ++ digit ++ ">".data
  else l

/-- `MarkdownParser.prototype._parseCodeBlock`: the collection loop over
lines before a closing fence (or to the end of input) is a `takeWhile`;
the returned pair is `(html, nextIndex)`. -/
def parseCodeBlockL (lines : List (List Char)) (startIndex : Nat) : List Char × Nat :=
  let firstLine := lines.getD startIndex []
  let language := trimL ((trimL firstLine).drop 3)
  let body := (lines.drop (startIndex + 1)).takeWhile (fun l => trimL l != "```".data)
  let code := body.map escapeChars
  let langClass :=
    if language ≠ [] then " class=\"language-".data ++ language ++ "\"".data else []
  ("<pre><code".data ++ langClass ++ ">".data ++ joinWith '\n' code ++ "</code></pre>".data,
   startIndex + 1 + body.length + 1)

/-- `MarkdownParser.prototype._parseBlockquote`. -/
def parseBlockquoteL (lines : List (List Char)) (startIndex : Nat) : List Char × Nat :=
  let body := (lines.drop startIndex).takeWhile (fun l => ['>'].isPrefixOf (trimL l))
  let content := body.map (fun l => trimL ((trimL l).drop 1))
  ("<blockquote><p>".data ++ joinWith ' ' content ++ "</p></blockquote>".data,
   startIndex + body.length)

/-- A list bullet (`[-*+]`). -/
def bulletChar (c : Char) : Bool := c == '-' || c == '*' || c == '+'

/-- The detector `/^[\s]*[-*+]\s/`. -/
def isUlStart (l : List Char) : Bool :=
  match l.dropWhile jsWs with
  | b :: c :: _ => bulletChar b && jsWs c
  | _ => false

/-- The detector `/^[\s]*\d+\.\s/`. -/
def isOlStart (l : List Char) : Bool :=
  let l1 := l.dropWhile jsWs
  let ds := l1.takeWhile (·.isDigit)
  !ds.isEmpty &&
    (match l1.drop ds.length with
     | '.' :: c :: _ => jsWs c
     | _ => false)

/-- The capture group of `/^[\s]*[-*+]\s+(.+)$/` (unordered) or
`/^[\s]*\d+\.\s+(.+)$/` (ordered), with the regex backtracking semantics:
when only whitespace follows the marker, `\s+` gives back its last
character to `(.+)`. -/
def listItemCapture (isOl : Bool) (l : List Char) : Option (List Char) :=
  let l1 := l.dropWhile jsWs
  let afterMarker : Option (List Char) :=
    if isOl then
      let ds := l1.takeWhile (·.isDigit)
      if ds.isEmpty then none
      else match l1.drop ds.length with
        | '.' :: r => some r
        | _ => none
    else match l1 with
      | b :: r => if bulletChar b then some r else none
      | [] => none
  match afterMarker with
  | none => none
  | some r =>
    let m := (r.takeWhile jsWs).length
    let rest := r.drop m
    if m = 0 then none
    else if rest ≠ [] then some rest
    else if 2 ≤ m then some (r.drop (m - 1))
    else none

/-- `MarkdownParser.prototype._parseList` (the type tag is `ol`/`ul`). -/
def parseListL (lines : List (List Char)) (startIndex : Nat) (isOl : Bool) :
    List Char × Nat :=
  let matched := (lines.drop startIndex).takeWhile (fun l => (listItemCapture isOl l).isSome)
  let items := matched.map
    (fun l => "<li>".data ++ (listItemCapture isOl l).getD [] ++ "</li>".data)
  let tag := if isOl then "ol".data else "ul".data
  ("<".data ++ tag ++ ">\n".data ++ joinWith '\n' items ++ "\n</".data ++ tag ++ ">".data,
   startIndex + matched.length)

/-- `MarkdownParser.prototype._isTableRow` (`line.indexOf('|') !== -1`). -/
def isTableRow (l : List Char) : Bool := l.contains '|'

/-- One `[\s]*:?-+:?[\s]*` cell of the delimiter-row regex
`/^\|?[\s]*:?-+:?[\s]*(\|[\s]*:?-+:?[\s]*)+\|?$/`; returns the remaining
input (maximal munch, which is unambiguous for this pattern). -/
def delimCell (l : List Char) : Option (List Char) :=
  let l1 := l.dropWhile jsWs
  let l2 := match l1 with
    | ':' :: r => r
    | _ => l1
  let hs := l2.takeWhile (· == '-')
  if hs.isEmpty then none
  else
    let l3 := l2.drop hs.length
    let l4 := match l3 with
      | ':' :: r => r
      | _ => l3
    some (l4.dropWhile jsWs)

/-- `(\|[\s]*:?-+:?[\s]*)*\|?$`: the part of the delimiter-row regex after
its first two cells, including the backtracking between the starred group
and the final optional pipe.  Each step consumes at least one character,
so fuel `length + 1` suffices. -/
def delimTailF : Nat → List Char → Bool
  | 0, _ => false
  | _ + 1, [] => true
  | f + 1, '|' :: r =>
    (match delimCell r with
     | some r2 => delimTailF f r2
     | none => false) || r.isEmpty
  | _ + 1, _ => false

/-- `MarkdownParser.prototype._isTableDelimiter`: the regex
`/^\|?[\s]*:?-+:?[\s]*(\|[\s]*:?-+:?[\s]*)+\|?$/` on the trimmed line
(an optional pipe, then at least two cells separated by pipes, then an
optional pipe). -/
def isTableDelimiter (l : List Char) : Bool :=
  let t := trimL l
  let t1 := match t with
    | '|' :: r => r
    | _ => t
  match delimCell t1 with
  | none => false
  | some r =>
    match r with
    | '|' :: r2 =>
      (match delimCell r2 with
       | some r3 => delimTailF (r3.length + 1) r3
       | none => false)
    | _ => false

/-- `MarkdownParser.prototype._parseTableRow`: split on `|`, trim each
cell, keep the non-empty ones. -/
def parseTableRowL (l : List Char) : List (List Char) :=
  ((splitChar '|' l).map trimL).filter (fun c => !c.isEmpty)

/-- `MarkdownParser.prototype._parseTable`. -/
def parseTableL (lines : List (List Char)) (startIndex : Nat) : List Char × Nat :=
  let headers := parseTableRowL (lines.getD startIndex [])
  let bodyLines := (lines.drop (startIndex + 2)).takeWhile isTableRow
  let rows := bodyLines.map parseTableRowL
  let headerHtml := (headers.map (fun h => "<th>".data ++ h ++ "</th>\n".data)).flatten
  let rowsHtml := (rows.map (fun row =>
      "<tr>\n".data
        ++ (row.map (fun c => "<td>".data ++ c ++ "</td>\n".data)).flatten
        ++ "</tr>\n".data)).flatten
  ("<table>\n<thead>\n<tr>\n".data ++ headerHtml ++ "</tr>\n</thead>\n<tbody>\n".data
     ++ rowsHtml ++ "</tbody>\n</table>".data,
   startIndex + 2 + bodyLines.length)

/-- The detector `/^(\*{3,}|-{3,}|_{3,})$/` (horizontal rule). -/
def isHr (l : List Char) : Bool :=
  decide (3 ≤ l.length) && (l.all (· == '*') || l.all (· == '-') || l.all (· == '_'))

/-- The scan loop of `MarkdownParser.prototype._parseBlocks`, with the
detectors tried in the source's order at each line index.  Every iteration
of the source's `while` loop advances the index, except that `_parseList`
can match zero item lines (an input line such as `"- "` passes the list
detector but not the item regex), where the source loops forever; the fuel
makes the model total and is sufficient for every terminating run. -/
def parseBlocksLoop (lines : List (List Char)) :
    Nat → Nat → List (List Char) → List (List Char)
  | 0, _, acc => acc
  | fuel + 1, i, acc =>
    if i < lines.length then
      let line := lines.getD i []
      if "```".data.isPrefixOf (trimL line) then
        let r := parseCodeBlockL lines i
        parseBlocksLoop lines fuel r.2 (acc ++ [r.1])
      else if isHeadingStart line then
        parseBlocksLoop lines fuel (i + 1) (acc ++ [parseHeadingL line])
      else if isHr line then
        parseBlocksLoop lines fuel (i + 1) (acc ++ ["<hr>".data])
      else if ['>'].isPrefixOf (trimL line) then
        let r := parseBlockquoteL lines i
        parseBlocksLoop lines fuel r.2 (acc ++ [r.1])
      else if isUlStart line then
        let r := parseListL lines i false
        parseBlocksLoop lines fuel r.2 (acc ++ [r.1])
      else if isOlStart line then
        let r := parseListL lines i true
        parseBlocksLoop lines fuel r.2 (acc ++ [r.1])
      else if isTableRow line && decide (i + 1 < lines.length)
          && isTableDelimiter (lines.getD (i + 1) []) then
        let r := parseTableL lines i
        parseBlocksLoop lines fuel r.2 (acc ++ [r.1])
      else if trimL line ≠ [] then
        parseBlocksLoop lines fuel (i + 1) (acc ++ ["<p>".data ++ line ++ "</p>".data])
      else
        parseBlocksLoop lines fuel (i + 1) acc
    else acc

/-- `MarkdownParser.prototype._parseBlocks`: split on newlines, scan, join
the emitted blocks with newlines. -/
def parseBlocks (text : String) : String :=
  let lines := splitChar '\n' text.data
  ⟨joinWith '\n' (parseBlocksLoop lines (lines.length + 1) 0 [])⟩

/-- `.` of a JS regex: any character except a newline. -/
def notNL (c : Char) : Bool := c != '\n'

/-- Lazy search for `(.+?)` followed by the closing delimiter: the shortest
non-empty span of non-newline characters after which `close` matches;
returns the span and the input remaining after the delimiter. -/
def findCloseLazy (close : List Char) : List Char → Option (List Char × List Char)
  | [] => none
  | c :: cs =>
    if notNL c then
      if close.isPrefixOf cs then some ([c], cs.drop close.length)
      else match findCloseLazy close cs with
        | some (sp, r) => some (c :: sp, r)
        | none => none
    else none

/-- One global-replace pass `/open(.+?)close/g → tagO $1 tagC`, scanning
left to right and resuming after each replacement, as
`String.prototype.replace` with a global regex does.  Each step consumes
at least one input character, so fuel `length + 1` (see `replaceSpans`)
never runs out. -/
def replaceSpansF (dOpen dClose tagO tagC : List Char) : Nat → List Char → List Char
  | 0, l => l
  | _ + 1, [] => []
  | f + 1, c :: cs =>
    if dOpen.isPrefixOf (c :: cs) then
      match findCloseLazy dClose ((c :: cs).drop dOpen.length) with
      | some (sp, rest) => tagO ++ sp ++ tagC ++ replaceSpansF dOpen dClose tagO tagC f rest
      | none => c :: replaceSpansF dOpen dClose tagO tagC f cs
    else c :: replaceSpansF dOpen dClose tagO tagC f cs

/-- One delimiter-pair replacement pass of `_parseInline`. -/
def replaceSpans (dOpen dClose tagO tagC : List Char) (l : List Char) : List Char :=
  replaceSpansF dOpen dClose tagO tagC (l.length + 1) l

/-- The backtick character. -/
def backtick : Char := Char.ofNat 96

/-- The inline-code pass (backtick-delimited, content HTML-escaped,
greedy `[^`]+`). -/
def replaceCodeF : Nat → List Char → List Char
  | 0, l => l
  | _ + 1, [] => []
  | f + 1, c :: cs =>
    if c = backtick then
      let sp := cs.takeWhile (fun d => d != backtick)
      if sp.isEmpty then c :: replaceCodeF f cs
      else match cs.drop sp.length with
        | d :: r2 =>
          if d = backtick then
            "<code>".data ++ escapeChars sp ++ "</code>".data ++ replaceCodeF f r2
          else c :: replaceCodeF f cs
        | [] => c :: replaceCodeF f cs
    else c :: replaceCodeF f cs

/-- `MarkdownParser.prototype._isValidURL` (link targets). -/
def isValidURL (url : String) : Bool :=
  if url = "" then false
  else
    let lowerUrl := trimS (lowerS url)
    if strStarts lowerUrl "javascript:" then false
    else if strStarts lowerUrl "vbscript:" then false
    else if strStarts lowerUrl "data:" then false
    else if strStarts url "//" then false
    else true

/-- `MarkdownParser.prototype._isValidImageURL` (image targets). -/
def isValidImageURL (url : String) : Bool :=
  if url = "" then false
  else
    let lowerUrl := trimS (lowerS url)
    if strStarts lowerUrl "javascript:" then false
    else if strStarts lowerUrl "vbscript:" then false
    else if strStarts url "//" then false
    else if strStarts lowerUrl "data:" then strStarts lowerUrl "data:image/"
    else true

/-- The replacement callback of the link rule
`/\[([^\]]+)\]\(([^)]+)\)/g`. -/
def linkRepl (text url : String) : String :=
  if isValidURL url then
    "<a href=\"" ++ escapeHTML url ++ "\">" ++ text ++ "</a>"
  else text

/-- The replacement callback of the image rule
`/!\[([^\]]*)\]\(([^)]+)\)/g`. -/
def imageRepl (alt url : String) : String :=
  if isValidImageURL url then
    "<img src=\"" ++ escapeHTML url ++ "\" alt=\"" ++ escapeHTML alt ++ "\">"
  else ""

/-- The link pass (`[text](url)`, greedy character classes; on a failed
match the scan resumes one character further, as a JS global regex
does). -/
def replaceLinksF : Nat → List Char → List Char
  | 0, l => l
  | _ + 1, [] => []
  | f + 1, c :: cs =>
    if c = '[' then
      let txt := cs.takeWhile (fun d => d != ']')
      if txt.isEmpty then c :: replaceLinksF f cs
      else match cs.drop txt.length with
        | ']' :: '(' :: r2 =>
          let url := r2.takeWhile (fun d => d != ')')
          if url.isEmpty then c :: replaceLinksF f cs
          else match r2.drop url.length with
            | ')' :: r4 => (linkRepl ⟨txt⟩ ⟨url⟩).data ++ replaceLinksF f r4
            | _ => c :: replaceLinksF f cs
        | _ => c :: replaceLinksF f cs
    else c :: replaceLinksF f cs

/-- The image pass (`![alt](url)`, `alt` may be empty). -/
def replaceImagesF : Nat → List Char → List Char
  | 0, l => l
  | _ + 1, [] => []
  | f + 1, '!' :: '[' :: cs =>
    (let alt := cs.takeWhile (fun d => d != ']')
     match cs.drop alt.length with
     | ']' :: '(' :: r2 =>
       let url := r2.takeWhile (fun d => d != ')')
       if url.isEmpty then '!' :: replaceImagesF f ('[' :: cs)
       else match r2.drop url.length with
         | ')' :: r4 => (imageRepl ⟨alt⟩ ⟨url⟩).data ++ replaceImagesF f r4
         | _ => '!' :: replaceImagesF f ('[' :: cs)
     | _ => '!' :: replaceImagesF f ('[' :: cs))
  | f + 1, c :: cs => c :: replaceImagesF f cs

/-- `MarkdownParser.prototype._parseInline`: the fixed order-sensitive
sequence of global replacements — `**` then `__` (strong), `*` then `_`
(emphasis), `~~` (strike), inline code, links, images. -/
def parseInline (html : String) : String :=
  let l0 := html.data
  let l1 := replaceSpans "**".data "**".data "<strong>".data "</strong>".data l0
  let l2 := replaceSpans "__".data "__".data "<strong>".data "</strong>".data l1
  let l3 := replaceSpans "*".data "*".data "<em>".data "</em>".data l2
  let l4 := replaceSpans "_".data "_".data "<em>".data "</em>".data l3
  let l5 := replaceSpans "~~".data "~~".data "<s>".data "</s>".data l4
  let l6 := replaceCodeF (l5.length + 1) l5
  let l7 := replaceLinksF (l6.length + 1) l6
  let l8 := replaceImagesF (l7.length + 1) l7
  ⟨l8⟩

/-- A registered plugin: the `stage` field (`none` models an unset/falsy
stage) and the `process` transform.  The read-only config argument of
`process(content, config)` plays no role in the pipeline logic and is left
implicit in the transform. -/
structure Plugin where
  stage : Option String
  process : String → String

/-- The condition `plugin.stage === stage || !plugin.stage` of
`MarkdownParser.prototype._applyPlugins`. -/
def stageMatches (p : Plugin) (stage : String) : Bool :=
  match p.stage with
  | some s => s == stage
  | none => true

/-- `MarkdownParser.prototype._applyPlugins`: fold over the registered
list in registration order, threading the content through each plugin
whose stage matches. -/
def applyPlugins (plugins : List Plugin) (stage : String) (content : String) : String :=
  plugins.foldl (fun result p => if stageMatches p stage then p.process result else result)
    content

/-- `MarkdownParser.prototype.parse` (non-string inputs are outside the
model; `!markdown` is the emptiness test on a string). -/
def parse (plugins : List Plugin) (markdown : String) : String :=
  if markdown = "" then ""
  else
    applyPlugins plugins "postprocess"
      (parseInline (parseBlocks (applyPlugins plugins "preprocess" markdown)))

end MarkdownParser

end MarkdownPDF

namespace MarkdownPDF

theorem toNat_ofNat_valid (n : Nat) (h : n.isValidChar) : (Char.ofNat n).toNat = n := by
  simp [Char.ofNat, h, Char.ofNatAux, Char.toNat, UInt32.toNat, UInt32.ofNatCore]

theorem lowerChar_idem (c : Char) : lowerChar (lowerChar c) = lowerChar c := by
  unfold lowerChar
  by_cases h : 65 ≤ c.toNat ∧ c.toNat ≤ 90
  · rw [if_pos h, if_neg]
    intro hc
    rw [toNat_ofNat_valid (c.toNat + 32) (Or.inl (by omega))] at hc
    omega
  · rw [if_neg h, if_neg h]

namespace MarkdownParser

theorem mem_wsRunsToHyphen {c : Char} {l : List Char} {b : Bool}
    (h : c ∈ wsRunsToHyphen l b) : c = '-' ∨ c ∈ l := by
  induction l generalizing b with
  | nil => simp [wsRunsToHyphen] at h
  | cons a as ih =>
    by_cases ha : jsWs a
    · rw [wsRunsToHyphen, if_pos ha] at h
      rcases b with _ | _
      · rcases List.mem_cons.mp h with h1 | h1
        · exact Or.inl h1
        · rcases ih h1 with h2 | h2
          · exact Or.inl h2
          · exact Or.inr (List.mem_cons_of_mem a h2)
      · rcases ih h with h2 | h2
        · exact Or.inl h2
        · exact Or.inr (List.mem_cons_of_mem a h2)
    · rw [wsRunsToHyphen, if_neg ha] at h
      rcases List.mem_cons.mp h with h1 | h1
      · exact Or.inr (h1 ▸ List.mem_cons_self a as)
      · rcases ih h1 with h2 | h2
        · exact Or.inl h2
        · exact Or.inr (List.mem_cons_of_mem a h2)

theorem wsRunsToHyphen_no_ws {c : Char} {l : List Char} {b : Bool}
    (h : c ∈ wsRunsToHyphen l b) : jsWs c = false := by
  induction l generalizing b with
  | nil => simp [wsRunsToHyphen] at h
  | cons a as ih =>
    by_cases ha : jsWs a
    · rw [wsRunsToHyphen, if_pos ha] at h
      rcases b with _ | _
      · rcases List.mem_cons.mp h with h1 | h1
        · rw [h1]; decide
        · exact ih h1
      · exact ih h
    · rw [wsRunsToHyphen, if_neg ha] at h
      rcases List.mem_cons.mp h with h1 | h1
      · rw [h1]; exact Bool.eq_false_iff.mpr ha
      · exact ih h1

theorem wsRunsToHyphen_id {l : List Char} (h : ∀ c ∈ l, jsWs c = false) :
    ∀ b, wsRunsToHyphen l b = l := by
  induction l with
  | nil => intro b; rfl
  | cons a as ih =>
    intro b
    have ha := h a (List.mem_cons_self a as)
    rw [wsRunsToHyphen, if_neg (by simp [ha]),
      ih (fun c hc => h c (List.mem_cons_of_mem a hc))]

theorem mem_collapseHyphens {c : Char} {l : List Char} {b : Bool}
    (h : c ∈ collapseHyphens l b) : c = '-' ∨ c ∈ l := by
  induction l generalizing b with
  | nil => simp [collapseHyphens] at h
  | cons a as ih =>
    by_cases ha : a = '-'
    · rw [collapseHyphens, if_pos ha] at h
      rcases b with _ | _
      · rcases List.mem_cons.mp h with h1 | h1
        · exact Or.inl h1
        · rcases ih h1 with h2 | h2
          · exact Or.inl h2
          · exact Or.inr (List.mem_cons_of_mem a h2)
      · rcases ih h with h2 | h2
        · exact Or.inl h2
        · exact Or.inr (List.mem_cons_of_mem a h2)
    · rw [collapseHyphens, if_neg ha] at h
      rcases List.mem_cons.mp h with h1 | h1
      · exact Or.inr (h1 ▸ List.mem_cons_self a as)
      · rcases ih h1 with h2 | h2
        · exact Or.inl h2
        · exact Or.inr (List.mem_cons_of_mem a h2)

theorem collapseHyphens_idem (l : List Char) :
    ∀ b, collapseHyphens (collapseHyphens l b) b = collapseHyphens l b := by
  induction l with
  | nil => intro b; rfl
  | cons a as ih =>
    intro b
    by_cases ha : a = '-'
    · subst ha
      cases b with
      | false => simp [collapseHyphens, ih]
      | true => simp [collapseHyphens, ih]
    · simp [collapseHyphens, ha, ih]

theorem dropWhile_eq_self_of {p : Char → Bool} {l : List Char}
    (h : ∀ c ∈ l, p c = false) : l.dropWhile p = l := by
  cases l with
  | nil => rfl
  | cons a as => rw [List.dropWhile_cons, if_neg (by simp [h a (List.mem_cons_self a as)])]

theorem trimL_id {l : List Char} (h : ∀ c ∈ l, jsWs c = false) : trimL l = l := by
  unfold trimL
  rw [dropWhile_eq_self_of h,
    dropWhile_eq_self_of (fun c hc => h c (List.mem_reverse.mp hc)), List.reverse_reverse]

theorem map_eq_self_of {f : Char → Char} {l : List Char}
    (h : ∀ c ∈ l, f c = c) : l.map f = l := by
  induction l with
  | nil => rfl
  | cons a as ih =>
    rw [List.map_cons, h a (List.mem_cons_self a as),
      ih (fun c hc => h c (List.mem_cons_of_mem a hc))]

theorem generateIdChars_no_ws {c : Char} {l : List Char}
    (h : c ∈ collapseHyphens (wsRunsToHyphen l false) false) : jsWs c = false := by
  rcases mem_collapseHyphens h with h1 | h1
  · rw [h1]; decide
  · exact wsRunsToHyphen_no_ws h1

theorem applyPlugins_cons (p : Plugin) (ps : List Plugin) (stage content : String) :
    applyPlugins (p :: ps) stage content
      = applyPlugins ps stage (if stageMatches p stage then p.process content else content) :=
  rfl

theorem applyPlugins_eq_foldl_filter (plugins : List Plugin) (stage content : String) :
    applyPlugins plugins stage content
      = (plugins.filter (fun p => stageMatches p stage)).foldl
          (fun acc p => p.process acc) content := by
  induction plugins generalizing content with
  | nil => rfl
  | cons p ps ih =>
    rw [applyPlugins_cons]
    by_cases h : stageMatches p stage = true
    · rw [if_pos h, ih, List.filter_cons, if_pos (by simpa using h), List.foldl_cons]
    · rw [if_neg h, ih, List.filter_cons, if_neg (by simpa using h)]

theorem splitChar_ne_nil (sep : Char) (l : List Char) : splitChar sep l ≠ [] := by
  cases l with
  | nil => simp [splitChar]
  | cons c cs =>
    rw [splitChar]
    cases h : splitChar sep cs with
    | nil => simp
    | cons seg segs =>
      by_cases hc : c = sep
      · simp [hc]
      · simp [hc]

theorem parseBlocksLoop_fence_step (lines : List (List Char)) (fuel i : Nat)
    (acc : List (List Char)) (hi : i < lines.length)
    (hf : "```".data.isPrefixOf (trimL (lines.getD i [])) = true) :
    parseBlocksLoop lines (fuel + 1) i acc
      = parseBlocksLoop lines fuel (parseCodeBlockL lines i).2
          (acc ++ [(parseCodeBlockL lines i).1]) := by
  rw [parseBlocksLoop, if_pos hi]
  simp only []
  rw [if_pos hf]

theorem parseBlocksLoop_exit (lines : List (List Char)) (fuel i : Nat)
    (acc : List (List Char)) (hi : ¬ i < lines.length) :
    parseBlocksLoop lines (fuel + 1) i acc = acc := by
  rw [parseBlocksLoop, if_neg hi]

end MarkdownParser

/-- Claim C6, counterexample: for the heading text `"- a--b"` (reachable
from the heading line `"# - a--b"`) the code's id generation yields
`"-a-b"` — the edge hyphen produced by the leading `"- "` is kept, because
the final `.trim()` removes only whitespace, and the pre-existing hyphen
run `--` is collapsed — whereas the derivation stated by the claim
(strip, hyphenate whitespace runs, trim edge hyphens) yields `"a--b"`. -/
theorem C6_counterexample :
    MarkdownParser.generateId "- a--b" = "-a-b"
      ∧ MarkdownParser.generateIdSpec "- a--b" = "a--b"
      ∧ ("-a-b" : String) ≠ "a--b" := by
  refine ⟨by decide, by decide, by decide⟩

/-- Claim C6 (amended): for every heading text, the generated heading id
equals the text lowercased, with non-word/non-space/non-hyphen characters
stripped, whitespace runs collapsed to single hyphens and hyphen runs
(including pre-existing ones) collapsed to single hyphens; edge hyphens
are NOT trimmed (the final `.trim()` of the code removes only whitespace,
of which none remains).  The derivation is idempotent: applied to its own
output it yields the same string. -/
theorem C6_generateId_characterization_and_idempotent (text : String) :
    MarkdownParser.generateId text = MarkdownParser.generateIdActual text
      ∧ MarkdownParser.generateId (MarkdownParser.generateId text)
        = MarkdownParser.generateId text := by
  have base : ∀ l : List Char, MarkdownParser.generateIdChars l
      = MarkdownParser.collapseHyphens
          (MarkdownParser.wsRunsToHyphen
            ((l.map lowerChar).filter MarkdownParser.idChar) false) false := by
    intro l
    have h := MarkdownParser.trimL_id
      (l := MarkdownParser.collapseHyphens
        (MarkdownParser.wsRunsToHyphen
          ((l.map lowerChar).filter MarkdownParser.idChar) false) false)
      (fun c hc => MarkdownParser.generateIdChars_no_ws hc)
    simpa [MarkdownParser.generateIdChars] using h
  refine ⟨congrArg String.mk (base text.data), ?_⟩
  have main : MarkdownParser.generateIdChars (MarkdownParser.generateIdChars text.data)
      = MarkdownParser.generateIdChars text.data := by
    have hmem : ∀ c ∈ MarkdownParser.collapseHyphens
        (MarkdownParser.wsRunsToHyphen
          ((text.data.map lowerChar).filter MarkdownParser.idChar) false) false,
        c = '-' ∨ c ∈ (text.data.map lowerChar).filter MarkdownParser.idChar := by
      intro c hc
      rcases MarkdownParser.mem_collapseHyphens hc with h1 | h1
      · exact Or.inl h1
      · exact MarkdownParser.mem_wsRunsToHyphen h1
    have hlower : ∀ c ∈ MarkdownParser.collapseHyphens
        (MarkdownParser.wsRunsToHyphen
          ((text.data.map lowerChar).filter MarkdownParser.idChar) false) false,
        lowerChar c = c := by
      intro c hc
      rcases hmem c hc with h1 | h1
      · rw [h1]; decide
      · rcases List.mem_map.mp (List.mem_of_mem_filter h1) with ⟨d, _, hd⟩
        rw [← hd]; exact lowerChar_idem d
    have hkeep : ∀ c ∈ MarkdownParser.collapseHyphens
        (MarkdownParser.wsRunsToHyphen
          ((text.data.map lowerChar).filter MarkdownParser.idChar) false) false,
        MarkdownParser.idChar c = true := by
      intro c hc
      rcases hmem c hc with h1 | h1
      · rw [h1]; decide
      · exact List.of_mem_filter h1
    have hnows : ∀ c ∈ MarkdownParser.collapseHyphens
        (MarkdownParser.wsRunsToHyphen
          ((text.data.map lowerChar).filter MarkdownParser.idChar) false) false,
        jsWs c = false := fun c hc => MarkdownParser.generateIdChars_no_ws hc
    rw [base text.data, base]
    rw [MarkdownParser.map_eq_self_of hlower, List.filter_eq_self.mpr hkeep,
      MarkdownParser.wsRunsToHyphen_id hnows false, MarkdownParser.collapseHyphens_idem]
  exact congrArg String.mk main

/-- Claim C1, evaluation at the failing input
`<foo><script>alert(1)</script></foo>` (both tags disallowed): the walk
unwraps the outer `foo` by splicing its children into the parent, but the
reverse-index iteration never visits the spliced-in children, so the
nested disallowed `script` element survives with its markup and is
serialized back into the output. -/
theorem C1_nested_disallowed_element_survives :
    Sanitizer.sanitizeNodes
        [.elem "foo" [] [.elem "script" [] [.text "alert(1)"]]]
        = [.elem "script" [] [.text "alert(1)"]]
      ∧ Sanitizer.allowedTags.contains (lowerS "script") = false
      ∧ Sanitizer.serializeNodes [Sanitizer.DNode.elem "script" [] [.text "alert(1)"]]
        = "<script>alert(1)</script>" := by
  refine ⟨?_, by decide, ?_⟩
  · simp [Sanitizer.sanitizeNodes]
    decide
  · simp [Sanitizer.serializeNodes, Sanitizer.serializeAttrs]

/-- Claim C2: on the Node.js code path (no DOM `document`), the stub
container returned by `_createContainer` has no child nodes, so the
sanitizing walk does nothing and `sanitize` returns every non-empty
string input unchanged. -/
theorem C2_sanitize_without_dom_is_identity (html : String) (h : html ≠ "") :
    Sanitizer.sanitizeNoDOM html = html := by
  simp [Sanitizer.sanitizeNoDOM, h]

/-- Witness for C2 at a concrete input carrying markup that a DOM-backed
sanitizer would have altered. -/
theorem C2_witness :
    ("<script>alert(1)</script>" : String) ≠ ""
      ∧ Sanitizer.sanitizeNoDOM "<script>alert(1)</script>" = "<script>alert(1)</script>" :=
  ⟨by decide, C2_sanitize_without_dom_is_identity "<script>alert(1)</script>" (by decide)⟩

/-- Claim C3, evaluation at the failing input `<foo><bar>x</bar></foo>`:
one application of the sanitizing walk leaves the nested disallowed
`bar` element (never visited after being spliced in), while a second
application unwraps it, so sanitize ∘ sanitize differs from sanitize. -/
theorem C3_sanitize_not_idempotent :
    Sanitizer.sanitizeNodes [.elem "foo" [] [.elem "bar" [] [.text "x"]]]
        = [.elem "bar" [] [.text "x"]]
      ∧ Sanitizer.sanitizeNodes (Sanitizer.sanitizeNodes
          [.elem "foo" [] [.elem "bar" [] [.text "x"]]])
        = [.text "x"]
      ∧ ([Sanitizer.DNode.text "x"] ≠ [Sanitizer.DNode.elem "bar" [] [.text "x"]]) := by
  have h1 : Sanitizer.sanitizeNodes [.elem "foo" [] [.elem "bar" [] [.text "x"]]]
      = [.elem "bar" [] [.text "x"]] := by
    simp [Sanitizer.sanitizeNodes]
    decide
  refine ⟨h1, ?_, by simp⟩
  rw [h1]
  simp [Sanitizer.sanitizeNodes, Sanitizer.sanitizeAttrs]
  decide

/-- Claim C4: every attribute whose lowercased name begins with `on` is
removed by the sanitizer's attribute pass regardless of the per-tag
whitelist, and concretely `<div onclick="x">y</div>` (with `div` allowed
and `onclick` not whitelisted for it) sanitizes to `<div>y</div>`. -/
theorem C4_event_handler_attributes_removed :
    (∀ tagName name value : String, strStarts (lowerS name) "on" = true →
        Sanitizer.keepAttr tagName name value = false)
      ∧ Sanitizer.serializeNodes (Sanitizer.sanitizeNodes
          [.elem "div" [("onclick", "x")] [.text "y"]]) = "<div>y</div>" := by
  constructor
  · intro tagName name value h
    unfold Sanitizer.keepAttr
    simp [h]
  · have h1 : Sanitizer.sanitizeNodes [.elem "div" [("onclick", "x")] [.text "y"]]
        = [.elem "div" [] [.text "y"]] := by
      have hc : Sanitizer.allowedTags.contains (lowerS "div") = true := by decide
      have hf : List.filter (fun a => Sanitizer.keepAttr (lowerS "div") a.1 a.2)
          [("onclick", "x")] = [] := by decide
      simp [Sanitizer.sanitizeNodes, Sanitizer.sanitizeAttrs, hc, hf]
      decide
    rw [h1]
    simp [Sanitizer.serializeNodes, Sanitizer.serializeAttrs]

/-- Witness for the universally quantified part of C4: the whitelisted
`div` tag with the event-handler attribute `onclick`. -/
theorem C4_witness :
    strStarts (lowerS "onclick") "on" = true
      ∧ Sanitizer.keepAttr "div" "onclick" "x" = false :=
  ⟨by decide, C4_event_handler_attributes_removed.1 "div" "onclick" "x" (by decide)⟩

/-- Claim C7, counterexample: a plugin whose `stage` field is unset IS
invoked when the preprocess stage runs — `plugin.stage === stage ||
!plugin.stage` is satisfied by a falsy stage at every requested stage —
contradicting the claim that only the postprocess stage invokes it. -/
theorem C7_counterexample :
    MarkdownParser.applyPlugins [⟨none, fun s => s ++ "!"⟩] "preprocess" "x" = "x!"
      ∧ ("x!" : String) ≠ "x" :=
  ⟨rfl, by decide⟩

/-- Claim C7 (amended): a plugin whose stage field is unset is treated as
matching EVERY requested stage: running the postprocess stage invokes it,
and running the preprocess stage invokes it as well. -/
theorem C7_unset_stage_matches_every_stage (f : String → String) (stage content : String) :
    MarkdownParser.applyPlugins [⟨none, f⟩] stage content = f content :=
  rfl

/-- Claim C9: running a stage threads the content through exactly the
matching plugins in registration order, each plugin receiving the previous
one's output (the run equals a left fold over the filtered registration
list); two plugins registered for the same stage compose in registration
order; and the postprocess stage is applied only to the output of block
parsing followed by inline parsing (which itself receives the preprocess
output), never earlier. -/
theorem C9_plugin_order_and_staging
    (plugins : List MarkdownParser.Plugin) (stage content : String) :
    (MarkdownParser.applyPlugins plugins stage content
        = (plugins.filter (fun p => MarkdownParser.stageMatches p stage)).foldl
            (fun acc p => p.process acc) content)
      ∧ (∀ f g : String → String, ∀ md : String,
          MarkdownParser.applyPlugins
            [⟨some stage, f⟩, ⟨some stage, g⟩] stage md = g (f md))
      ∧ (∀ md : String, MarkdownParser.parse plugins md
          = if md = "" then ""
            else MarkdownParser.applyPlugins plugins "postprocess"
              (MarkdownParser.parseInline (MarkdownParser.parseBlocks
                (MarkdownParser.applyPlugins plugins "preprocess" md)))) := by
  refine ⟨MarkdownParser.applyPlugins_eq_foldl_filter plugins stage content, ?_, ?_⟩
  · intro f g md
    simp [MarkdownParser.applyPlugins, MarkdownParser.stageMatches]
  · intro md
    rfl

/-- Claim C10: the three-line input `|A|B|`, `|-|-|`, `|1|2|` parses to a
table with header cells `A`, `B` and one body row with cells `1`, `2`;
the header is the pipe-split non-empty trimmed cells of the first line and
the second line passes the delimiter-row pattern. -/
theorem C10_table_scenario :
    MarkdownParser.parseBlocks "|A|B|\n|-|-|\n|1|2|"
        = "<table>\n<thead>\n<tr>\n<th>A</th>\n<th>B</th>\n</tr>\n</thead>\n<tbody>\n<tr>\n<td>1</td>\n<td>2</td>\n</tr>\n</tbody>\n</table>"
      ∧ MarkdownParser.parseTableRowL "|A|B|".data = ["A".data, "B".data]
      ∧ MarkdownParser.isTableDelimiter "|-|-|".data = true := by
  refine ⟨by decide, by decide, by decide⟩

/-- Claim C5, counterexample: the image construct `![x](javascript:alert)`
(invalid image URL, nonempty alt) is NOT replaced by the empty string: the
link pass, which runs before the image pass, consumes `[x](javascript:alert)`
and degrades it to its text `x`, so the inline parser emits `!x`. -/
theorem C5_counterexample :
    MarkdownParser.parseInline "![x](javascript:alert)" = "!x"
      ∧ ("!x" : String) ≠ "" :=
  ⟨by decide, by decide⟩

/-- Claim C5 (amended): a link whose url is scheme-prefixed
`javascript:`/`vbscript:`/`data:` (case-insensitively, after the trim the
code applies) or protocol-relative degrades to its bare text — no anchor
tag; an image whose url fails image validation (same rejections except
`data:` immediately followed by `image/` is accepted) is replaced by the
empty string by the image-rule callback, but the image pass sees
`![alt](url)` intact only when `alt` is empty, because the link pass runs
first and otherwise consumes `[alt](url)`, leaving `!` followed by the
degraded link text; no error is raised (every pass is a total function). -/
theorem C5_dangerous_url_handling (text alt url : String) :
    ((strStarts (trimS (lowerS url)) "javascript:" = true
        ∨ strStarts (trimS (lowerS url)) "vbscript:" = true
        ∨ strStarts (trimS (lowerS url)) "data:" = true
        ∨ strStarts url "//" = true) →
      MarkdownParser.linkRepl text url = text)
    ∧ ((strStarts (trimS (lowerS url)) "javascript:" = true
        ∨ strStarts (trimS (lowerS url)) "vbscript:" = true
        ∨ (strStarts (trimS (lowerS url)) "data:" = true
            ∧ strStarts (trimS (lowerS url)) "data:image/" = false)
        ∨ strStarts url "//" = true) →
      MarkdownParser.imageRepl alt url = "")
    ∧ MarkdownParser.parseInline "[a](javascript:x)" = "a"
    ∧ MarkdownParser.parseInline "![](vbscript:x)" = "" := by
  have hlink : (strStarts (trimS (lowerS url)) "javascript:" = true
      ∨ strStarts (trimS (lowerS url)) "vbscript:" = true
      ∨ strStarts (trimS (lowerS url)) "data:" = true
      ∨ strStarts url "//" = true) →
      MarkdownParser.isValidURL url = false := by
    intro h
    unfold MarkdownParser.isValidURL
    by_cases h0 : url = ""
    · rw [if_pos h0]
    · rw [if_neg h0]
      show (if strStarts (trimS (lowerS url)) "javascript:" = true then false
        else if strStarts (trimS (lowerS url)) "vbscript:" = true then false
        else if strStarts (trimS (lowerS url)) "data:" = true then false
        else if strStarts url "//" = true then false
        else true) = false
      split_ifs with hc1 hc2 hc3 hc4
      · rfl
      · rfl
      · rfl
      · rfl
      · rcases h with h' | h' | h' | h' <;> simp_all
  have himg : (strStarts (trimS (lowerS url)) "javascript:" = true
      ∨ strStarts (trimS (lowerS url)) "vbscript:" = true
      ∨ (strStarts (trimS (lowerS url)) "data:" = true
          ∧ strStarts (trimS (lowerS url)) "data:image/" = false)
      ∨ strStarts url "//" = true) →
      MarkdownParser.isValidImageURL url = false := by
    intro h
    unfold MarkdownParser.isValidImageURL
    by_cases h0 : url = ""
    · rw [if_pos h0]
    · rw [if_neg h0]
      show (if strStarts (trimS (lowerS url)) "javascript:" = true then false
        else if strStarts (trimS (lowerS url)) "vbscript:" = true then false
        else if strStarts url "//" = true then false
        else if strStarts (trimS (lowerS url)) "data:" = true then
          strStarts (trimS (lowerS url)) "data:image/"
        else true) = false
      split_ifs with hc1 hc2 hc3 hc4
      · rfl
      · rfl
      · rfl
      · rcases h with h' | h' | ⟨hd, hdi⟩ | h' <;> simp_all
      · rcases h with h' | h' | ⟨hd, hdi⟩ | h' <;> simp_all
  refine ⟨?_, ?_, by decide, by decide⟩
  · intro h
    simp [MarkdownParser.linkRepl, hlink h]
  · intro h
    simp [MarkdownParser.imageRepl, himg h]

/-- Witness for the universally quantified parts of C5: a `javascript:`
link target degrades to the text, and a non-image `data:` image target is
replaced by the empty string. -/
theorem C5_witness :
    strStarts (trimS (lowerS "javascript:alert(1)")) "javascript:" = true
      ∧ MarkdownParser.linkRepl "click" "javascript:alert(1)" = "click"
      ∧ MarkdownParser.imageRepl "pic" "data:text/html,x" = "" :=
  ⟨by decide,
   (C5_dangerous_url_handling "click" "pic" "javascript:alert(1)").1 (Or.inl (by decide)),
   (C5_dangerous_url_handling "click" "pic" "data:text/html,x").2.1
     (Or.inr (Or.inr (Or.inl ⟨by decide, by decide⟩)))⟩

/-- Claim C8: when a fenced code block is opened and no later line is a
closing fence, `_parseCodeBlock` consumes every remaining line to the end
of the document as HTML-escaped code content inside a single pre/code
block (language class from the opening fence) and returns an index past
the end of the line list, so the scan loop stops; in particular, for a
document whose first line opens such a fence, `parseBlocks` returns that
single pre/code block.  No error is raised — the parse is a total
function. -/
theorem C8_unterminated_fence_consumes_to_end (text : String)
    (h1 : "```".data.isPrefixOf
        (trimL ((MarkdownParser.splitChar '\n' text.data).headD [])) = true)
    (h2 : ∀ l ∈ (MarkdownParser.splitChar '\n' text.data).drop 1,
        trimL l ≠ "```".data) :
    (∀ (lines : List (List Char)) (s : Nat),
        (∀ l ∈ lines.drop (s + 1), trimL l ≠ "```".data) →
        MarkdownParser.parseCodeBlockL lines s
            = ("<pre><code".data
                ++ (if trimL ((trimL (lines.getD s [])).drop 3) ≠ []
                    then " class=\"language-".data
                      ++ trimL ((trimL (lines.getD s [])).drop 3) ++ "\"".data
                    else [])
                ++ ">".data
                ++ MarkdownParser.joinWith '\n'
                    ((lines.drop (s + 1)).map MarkdownParser.escapeChars)
                ++ "</code></pre>".data,
               s + 1 + (lines.drop (s + 1)).length + 1)
          ∧ lines.length < (MarkdownParser.parseCodeBlockL lines s).2)
    ∧ MarkdownParser.parseBlocks text =
      ⟨"<pre><code".data
        ++ (if trimL ((trimL ((MarkdownParser.splitChar '\n' text.data).headD [])).drop 3) ≠ []
            then " class=\"language-".data
              ++ trimL ((trimL ((MarkdownParser.splitChar '\n' text.data).headD [])).drop 3)
              ++ "\"".data
            else [])
        ++ ">".data
        ++ MarkdownParser.joinWith '\n'
            (((MarkdownParser.splitChar '\n' text.data).drop 1).map MarkdownParser.escapeChars)
        ++ "</code></pre>".data⟩ := by
  have hA : ∀ (lines : List (List Char)) (s : Nat),
      (∀ l ∈ lines.drop (s + 1), trimL l ≠ "```".data) →
      MarkdownParser.parseCodeBlockL lines s
          = ("<pre><code".data
              ++ (if trimL ((trimL (lines.getD s [])).drop 3) ≠ []
                  then " class=\"language-".data
                    ++ trimL ((trimL (lines.getD s [])).drop 3) ++ "\"".data
                  else [])
              ++ ">".data
              ++ MarkdownParser.joinWith '\n'
                  ((lines.drop (s + 1)).map MarkdownParser.escapeChars)
              ++ "</code></pre>".data,
             s + 1 + (lines.drop (s + 1)).length + 1)
        ∧ lines.length < (MarkdownParser.parseCodeBlockL lines s).2 := by
    intro lines s hs
    have hbody : (lines.drop (s + 1)).takeWhile (fun l => trimL l != "```".data)
        = lines.drop (s + 1) :=
      List.takeWhile_eq_self_iff.mpr (fun x hx => bne_iff_ne.mpr (hs x hx))
    have hpair : MarkdownParser.parseCodeBlockL lines s
        = ("<pre><code".data
            ++ (if trimL ((trimL (lines.getD s [])).drop 3) ≠ []
                then " class=\"language-".data
                  ++ trimL ((trimL (lines.getD s [])).drop 3) ++ "\"".data
                else [])
            ++ ">".data
            ++ MarkdownParser.joinWith '\n'
                ((lines.drop (s + 1)).map MarkdownParser.escapeChars)
            ++ "</code></pre>".data,
           s + 1 + (lines.drop (s + 1)).length + 1) := by
      unfold MarkdownParser.parseCodeBlockL
      rw [hbody]
    refine ⟨hpair, ?_⟩
    rw [hpair]
    show lines.length < s + 1 + (lines.drop (s + 1)).length + 1
    rw [List.length_drop]
    omega
  refine ⟨hA, ?_⟩
  obtain ⟨l0, rest, hl⟩ :=
    List.exists_cons_of_ne_nil (MarkdownParser.splitChar_ne_nil '\n' text.data)
  rw [MarkdownParser.parseBlocks, hl]
  rw [hl] at h1 h2
  have hs0 : ∀ l ∈ (l0 :: rest).drop (0 + 1), trimL l ≠ "```".data := by
    simpa using h2
  have hpairA := (hA (l0 :: rest) 0 hs0).1
  have hlt := (hA (l0 :: rest) 0 hs0).2
  have hlen : (l0 :: rest).length + 1 = rest.length + 1 + 1 := by simp
  rw [hlen]
  have step := MarkdownParser.parseBlocksLoop_fence_step (l0 :: rest) (rest.length + 1) 0 []
    (by simp) (by simpa using h1)
  rw [step]
  have hexit := MarkdownParser.parseBlocksLoop_exit (l0 :: rest) rest.length
    (MarkdownParser.parseCodeBlockL (l0 :: rest) 0).2
    ([] ++ [(MarkdownParser.parseCodeBlockL (l0 :: rest) 0).1])
    (by omega)
  rw [hexit, hpairA]
  rfl

/-- Witness for C8: a concrete two-line document whose fenced `js` block is
never closed. -/
theorem C8_witness :
    ("```".data.isPrefixOf
        (trimL ((MarkdownPDF.MarkdownParser.splitChar '\n'
          "```js\nconsole.log(1)".data).headD [])) = true)
      ∧ MarkdownParser.parseBlocks "```js\nconsole.log(1)"
        = "<pre><code class=\"language-js\">console.log(1)</code></pre>" := by
  refine ⟨by decide, ?_⟩
  have h := C8_unterminated_fence_consumes_to_end "```js\nconsole.log(1)" (by decide)
    (by decide)
  exact h.2.trans (by decide)

end MarkdownPDF
